import Mathlib

/-!
A shallow embedding of the multi-client chat relay implemented in
`src/server_multi.c`, together with proofs about its registry, framing,
command interpretation and broadcast behaviour.

The C program keeps two parallel arrays `clients[MAX_CLIENTS]` (socket
file descriptors, `0` meaning a free slot) and `names[MAX_CLIENTS]`
(nicknames).  We model a byte string as a `List Char`, the registry as a
`ServerState` holding the two lists, and each event-loop handler as a
pure function from the state (plus the event's data) to the new state
and the list of I/O actions (`send`/`close`) the handler performs.
Send results are ignored by the C code (`(void)sent`), which we model by
passing an arbitrary send-result oracle `sendFn` that the handlers bind
and discard.
-/

namespace ChatServer

/-- Maximum number of simultaneously connected clients (C macro `MAX_CLIENTS`). -/
def MAX_CLIENTS : Nat := 64

/-- Size of the receive/message buffer (C macro `BUF_SIZE`). -/
def BUF_SIZE : Nat := 2048

/-- Maximum nickname length, terminating NUL included (C macro `NAME_LEN`). -/
def NAME_LEN : Nat := 32

/-- A C byte string, modelled as a list of characters. -/
abbrev Bytes := List Char

/-- Is a character a carriage return or a line feed? -/
def crlf (c : Char) : Bool := c == '\n' || c == '\r'

/-- C function `trim_crlf`: strip the trailing run of CR/LF characters
from the end of a string (interior characters are untouched). -/
def trim_crlf (s : Bytes) : Bytes :=
  (s.reverse.dropWhile crlf).reverse

/-- C `isprint` in the default locale: printable ASCII, `0x20` to `0x7e`. -/
def isprintChar (c : Char) : Bool := 32 ≤ c.toNat && c.toNat ≤ 126

/-- A character kept by the nickname sanitizer: printable and not a bracket
(`isprint((unsigned char)*newname) && *newname != '[' && *newname != ']'`). -/
def goodNameChar (c : Char) : Bool := isprintChar c && c != '[' && c != ']'

/-- The sanitizing copy loop of the `NICK` handler: scan the candidate,
copy characters satisfying `goodNameChar`, and stop once `NAME_LEN - 1`
characters have been copied (`for (; *newname && k < NAME_LEN - 1; newname++)`).
`k` is the number of characters copied so far. -/
def sanitize_go : Nat → Bytes → Bytes
  | _, [] => []
  | k, c :: rest =>
    if NAME_LEN - 1 ≤ k then []
    else if goodNameChar c then c :: sanitize_go (k + 1) rest
    else sanitize_go k rest

/-- Sanitized nickname: the copy loop started with `k = 0`. -/
def sanitize (s : Bytes) : Bytes := sanitize_go 0 s

/-- An I/O action performed by a handler: send bytes to a descriptor, or
close a descriptor. -/
inductive Output : Type where
  | send (fd : Nat) (data : Bytes)
  | close (fd : Nat)
deriving DecidableEq

/-- The registry: the `clients[]` array (descriptor per slot, `0` = free)
and the `names[]` array, as in `server_multi.c`. -/
structure ServerState : Type where
  clients : List Nat
  names : List Bytes
deriving DecidableEq

/-- The loop body of C `broadcast_to_all`, carrying the current slot
index `i`.  For each slot holding a live descriptor (`socks[i] > 0`)
other than the excluded one, a send is attempted; the send result
(oracle `sendFn`) is bound and discarded, exactly as the C code does
with `ssize_t sent = send(...); (void)sent;`. -/
def broadcast_go (except_idx : Int) (data : Bytes) (sendFn : Nat → Int) :
    Nat → List Nat → List Output
  | _, [] => []
  | i, sock :: rest =>
    if 0 < sock ∧ (i : Int) ≠ except_idx then
      let _sent := sendFn sock
      Output.send sock data :: broadcast_go except_idx data sendFn (i + 1) rest
    else
      broadcast_go except_idx data sendFn (i + 1) rest

/-- C function `broadcast_to_all(socks, except_idx, data, len)`: iterate
every slot, sending `data` to each live descriptor whose slot index is
not `except_idx` (the caller passes `-1` for "no exclusion"). -/
def broadcast_to_all (socks : List Nat) (except_idx : Int) (data : Bytes)
    (sendFn : Nat → Int) : List Output :=
  broadcast_go except_idx data sendFn 0 socks

/-- The fixed rejection notice sent to a connection refused for capacity. -/
def serverFullMsg : Bytes := "Server full.\n".data

/-- Notice sent when a `NICK` directive has an empty candidate. -/
def emptyNameMsg : Bytes := "Name cannot be empty".data

/-- Notice sent when a `NICK` candidate sanitizes to the empty string. -/
def invalidNameMsg : Bytes := "Invalid name".data

/-- Default placeholder nickname assigned on admission:
`snprintf(names[slot], NAME_LEN, "anon%d", cfd)`. -/
def defaultName (cfd : Nat) : Bytes :=
  ("anon".data ++ (toString cfd).data).take (NAME_LEN - 1)

/-- Formatting of a client chat line:
`snprintf(out, sizeof(out), "[%s] %s\n", names[i], buf)` where
`sizeof(out) = BUF_SIZE + NAME_LEN + 8`; `snprintf` truncates to the
buffer size minus the terminating NUL. -/
def chatFormat (name text : Bytes) : Bytes :=
  ("[".data ++ name ++ "] ".data ++ text ++ "\n".data).take (BUF_SIZE + NAME_LEN + 8 - 1)

/-- Formatting of an operator line:
`snprintf(out, sizeof(out), "[server] %s\n", buf)` where
`sizeof(out) = BUF_SIZE + 16`. -/
def serverFormat (text : Bytes) : Bytes :=
  ("[server] ".data ++ text ++ "\n".data).take (BUF_SIZE + 16 - 1)

/-- The admission scan: index of the first free slot
(`for i: if (clients[i] == 0) slot = i`), `none` when the array is full. -/
def findFreeSlot : List Nat → Option Nat
  | [] => none
  | sock :: rest =>
    if sock = 0 then some 0
    else (findFreeSlot rest).map (fun j => j + 1)

/-- Handling of a newly accepted connection `cfd` (lines 126-141 of
`server_multi.c`): find a free slot; if none, send the fixed server-full
notice to the new connection and close it, leaving the registry alone;
otherwise store the descriptor and the default placeholder name. -/
def handleAccept (st : ServerState) (cfd : Nat) : ServerState × List Output :=
  match findFreeSlot st.clients with
  | none => (st, [Output.send cfd serverFullMsg, Output.close cfd])
  | some slot =>
    ({ clients := st.clients.set slot cfd,
       names := st.names.set slot (defaultName cfd) }, [])

/-- Eviction of slot `i` as the event loop performs it: a free slot
(`sd <= 0`) is skipped outright; an occupied one has its descriptor
closed and both array entries cleared (`close(sd); clients[i] = 0;
names[i][0] = '\0';`). -/
def evictSlot (st : ServerState) (i : Nat) : ServerState × List Output :=
  if st.clients.getD i 0 = 0 then (st, [])
  else ({ clients := st.clients.set i 0, names := st.names.set i [] },
        [Output.close (st.clients.getD i 0)])

/-- The command-classification test `strncmp(buf, "NICK ", 5) == 0`:
the line starts with the exact five bytes `NICK` + space. -/
def isNickDirective (buf : Bytes) : Bool := buf.take 5 == "NICK ".data

/-- Processing of one trimmed line `buf` from the client in slot `i`
with descriptor `sd` (lines 180-213 of `server_multi.c`): a `NICK `
directive renames (rejecting an empty or all-filtered candidate with a
notice to the sender only); any other line — the empty line included —
is formatted with the sender's current name and broadcast with the
sender's slot excluded. -/
def handleLine (sendFn : Nat → Int) (st : ServerState) (i : Nat) (sd : Nat)
    (buf : Bytes) : ServerState × List Output :=
  if isNickDirective buf then
    if buf.drop 5 = [] then (st, [Output.send sd emptyNameMsg])
    else if sanitize (buf.drop 5) = [] then (st, [Output.send sd invalidNameMsg])
    else ({ st with names := st.names.set i ((sanitize (buf.drop 5)).take (NAME_LEN - 1)) }, [])
  else
    (st, broadcast_to_all st.clients (i : Int) (chatFormat (st.names.getD i []) buf) sendFn)

/-- Result of `recv` on a ready client connection: `closed` for `n <= 0`
(disconnect or error), `data chunk` for a successful read of the bytes
`chunk`. -/
inductive RecvResult : Type where
  | closed
  | data (chunk : Bytes)
deriving DecidableEq

/-- Handling of readiness on the client in slot `i` (lines 162-214 of
`server_multi.c`): a free slot is skipped; a failed read evicts the
slot; a successful read strips trailing CR/LF from the whole chunk and
hands the result to the line handler as a single line. -/
def handleClientData (sendFn : Nat → Int) (st : ServerState) (i : Nat)
    (r : RecvResult) : ServerState × List Output :=
  if st.clients.getD i 0 = 0 then (st, [])
  else
    match r with
    | RecvResult.closed => evictSlot st i
    | RecvResult.data chunk => handleLine sendFn st i (st.clients.getD i 0) (trim_crlf chunk)

/-- Handling of operator input (lines 145-159 of `server_multi.c`):
`none` models end-of-stream on stdin.  The result is `none` when the
relay shuts down (EOF or the `/quit` directive) and otherwise the
broadcast of the `[server] `-prefixed line to every client, with no
exclusion (`except_idx = -1`). -/
def handleStdin (sendFn : Nat → Int) (st : ServerState) (input : Option Bytes) :
    Option (List Output) :=
  match input with
  | none => none
  | some line =>
    if trim_crlf line = "/quit".data then none
    else some (broadcast_to_all st.clients (-1) (serverFormat (trim_crlf line)) sendFn)

/-- A registry operation: admission of a new descriptor or eviction of a
slot.  Used to quantify over arbitrary admit/evict sequences. -/
inductive RegistryOp : Type where
  | accept (cfd : Nat)
  | evict (i : Nat)

/-- The registry after one operation. -/
def applyOp (st : ServerState) (op : RegistryOp) : ServerState :=
  match op with
  | RegistryOp.accept cfd => (handleAccept st cfd).1
  | RegistryOp.evict i => (evictSlot st i).1

/-- The registry after a sequence of operations. -/
def applyOps (st : ServerState) (ops : List RegistryOp) : ServerState :=
  ops.foldl applyOp st

/-- The initial registry: every slot free, every name empty
(`int clients[MAX_CLIENTS] = {0}; names[i][0] = '\0';`). -/
def initState : ServerState :=
  { clients := List.replicate MAX_CLIENTS 0
    names := List.replicate MAX_CLIENTS [] }

/-- Number of simultaneously admitted clients: slots holding a live
descriptor. -/
def admittedCount (st : ServerState) : Nat :=
  st.clients.countP (fun sock => decide (0 < sock))

/-- A small concrete registry: two admitted clients, descriptors 4 and 5,
still carrying their default names. -/
def stAB : ServerState :=
  { clients := [4, 5], names := ["anon4".data, "anon5".data] }

/-- A concrete registry with every slot occupied. -/
def fullState : ServerState :=
  { clients := List.replicate MAX_CLIENTS 7
    names := List.replicate MAX_CLIENTS [] }

/-! ## Basic lemmas about the embedded operations -/

theorem take_nick (c : Bytes) : ("NICK ".data ++ c).take 5 = "NICK ".data := rfl

theorem drop_nick (c : Bytes) : ("NICK ".data ++ c).drop 5 = c := rfl

theorem isNickDirective_append (c : Bytes) :
    isNickDirective ("NICK ".data ++ c) = true := by
  simp [isNickDirective, take_nick]

theorem sanitize_nil : sanitize ([] : Bytes) = [] := rfl

theorem sanitize_go_length (s : Bytes) :
    ∀ k : Nat, (sanitize_go k s).length ≤ NAME_LEN - 1 - k := by
  induction s with
  | nil => intro k; simp [sanitize_go]
  | cons c rest ih =>
    intro k
    by_cases hk : NAME_LEN - 1 ≤ k
    · simp [sanitize_go, hk]
    · by_cases hg : goodNameChar c = true
      · have := ih (k + 1)
        simp only [sanitize_go, if_neg hk, if_pos hg, List.length_cons]
        omega
      · have := ih k
        simp only [sanitize_go, if_neg hk, if_neg hg]
        omega

theorem sanitize_go_eq (s : Bytes) :
    ∀ k : Nat, sanitize_go k s = (s.filter goodNameChar).take (NAME_LEN - 1 - k) := by
  induction s with
  | nil => intro k; simp [sanitize_go]
  | cons c rest ih =>
    intro k
    by_cases hk : NAME_LEN - 1 ≤ k
    · have h0 : NAME_LEN - 1 - k = 0 := by omega
      simp [sanitize_go, hk, h0]
    · by_cases hg : goodNameChar c = true
      · have hs : NAME_LEN - 1 - k = (NAME_LEN - 1 - (k + 1)) + 1 := by omega
        simp only [sanitize_go, if_neg hk, if_pos hg, List.filter_cons, hg, if_true, hs,
          List.take_succ_cons, ih (k + 1)]
      · have hg' : goodNameChar c = false := by
          cases hgv : goodNameChar c
          · rfl
          · exact absurd hgv hg
        simp only [sanitize_go, if_neg hk, if_neg hg, List.filter_cons, hg',
          Bool.false_eq_true, if_false, ih k]

theorem sanitize_eq_filter_take (s : Bytes) :
    sanitize s = (s.filter goodNameChar).take (NAME_LEN - 1) := by
  simpa [sanitize] using sanitize_go_eq s 0

theorem sanitize_length_le (s : Bytes) : (sanitize s).length ≤ NAME_LEN - 1 := by
  simpa [sanitize] using sanitize_go_length s 0

theorem sanitize_take (s : Bytes) :
    (sanitize s).take (NAME_LEN - 1) = sanitize s :=
  List.take_of_length_le (sanitize_length_le s)

theorem broadcast_go_sendFn_irrelevant (e : Int) (d : Bytes) (f g : Nat → Int)
    (socks : List Nat) :
    ∀ i : Nat, broadcast_go e d f i socks = broadcast_go e d g i socks := by
  induction socks with
  | nil => intro i; rfl
  | cons s rest ih =>
    intro i
    simp only [broadcast_go]
    split
    · simp [ih]
    · exact ih _

theorem broadcast_go_eq_spec (e : Int) (d : Bytes) (f : Nat → Int) (socks : List Nat) :
    ∀ i : Nat,
      broadcast_go e d f i socks =
        ((List.enumFrom i socks).filter
            (fun p => decide (0 < p.2 ∧ (p.1 : Int) ≠ e))).map
          (fun p => Output.send p.2 d) := by
  induction socks with
  | nil => intro i; rfl
  | cons s rest ih =>
    intro i
    simp only [broadcast_go, List.enumFrom_cons, List.filter_cons]
    by_cases h : 0 < s ∧ (i : Int) ≠ e
    · simp [h, ih]
    · simp [h, ih]

theorem broadcast_to_all_eq_spec (socks : List Nat) (e : Int) (d : Bytes)
    (f : Nat → Int) :
    broadcast_to_all socks e d f =
      ((List.enumFrom 0 socks).filter
          (fun p => decide (0 < p.2 ∧ (p.1 : Int) ≠ e))).map
        (fun p => Output.send p.2 d) :=
  broadcast_go_eq_spec e d f socks 0

theorem handleAccept_clients_length (st : ServerState) (cfd : Nat) :
    ((handleAccept st cfd).1).clients.length = st.clients.length := by
  cases hfs : findFreeSlot st.clients with
  | none => simp [handleAccept, hfs]
  | some slot => simp [handleAccept, hfs]

theorem evictSlot_clients_length (st : ServerState) (i : Nat) :
    ((evictSlot st i).1).clients.length = st.clients.length := by
  by_cases h : st.clients.getD i 0 = 0
  · simp only [evictSlot, if_pos h]
  · simp only [evictSlot, if_neg h, List.length_set]

theorem applyOp_clients_length (st : ServerState) (op : RegistryOp) :
    ((applyOp st op).clients).length = st.clients.length := by
  cases op with
  | accept cfd => exact handleAccept_clients_length st cfd
  | evict i => exact evictSlot_clients_length st i

theorem applyOps_clients_length (ops : List RegistryOp) :
    ∀ st : ServerState, ((applyOps st ops).clients).length = st.clients.length := by
  induction ops with
  | nil => intro st; rfl
  | cons op rest ih =>
    intro st
    have h1 : applyOps st (op :: rest) = applyOps (applyOp st op) rest := rfl
    rw [h1, ih, applyOp_clients_length]

theorem findFreeSlot_isSome (l : List Nat) :
    ∀ i : Nat, i < l.length → l.getD i 0 = 0 → (findFreeSlot l).isSome = true := by
  induction l with
  | nil => intro i hi; simp at hi
  | cons s rest ih =>
    intro i hi h0
    by_cases hs : s = 0
    · simp [findFreeSlot, hs]
    · cases i with
      | zero => simp [List.getD] at h0; exact absurd h0 hs
      | succ j =>
        have hj : j < rest.length := by simpa using hi
        have h0' : rest.getD j 0 = 0 := by simpa using h0
        have hrest := ih j hj h0'
        cases hfr : findFreeSlot rest with
        | none => rw [hfr] at hrest; simp at hrest
        | some slot => simp [findFreeSlot, hs, hfr]

theorem handleAccept_of_isSome (st : ServerState) (cfd : Nat)
    (h : (findFreeSlot st.clients).isSome = true) :
    (handleAccept st cfd).2 = [] := by
  rcases Option.isSome_iff_exists.mp h with ⟨slot, hs⟩
  simp [handleAccept, hs]

theorem handleClientData_data_eq (f : Nat → Int) (st : ServerState) (i sd : Nat)
    (chunk : Bytes) (hsd : st.clients.getD i 0 = sd) (hpos : 0 < sd) :
    handleClientData f st i (RecvResult.data chunk) =
      handleLine f st i sd (trim_crlf chunk) := by
  have hne : ¬ st.clients.getD i 0 = 0 := by rw [hsd]; omega
  simp only [handleClientData, if_neg hne, hsd]
  rw [if_neg (show ¬ sd = 0 by omega)]

theorem handleLine_chat (f : Nat → Int) (st : ServerState) (i sd : Nat) (buf : Bytes)
    (h : isNickDirective buf = false) :
    handleLine f st i sd buf =
      (st, broadcast_to_all st.clients (i : Int)
        (chatFormat (st.names.getD i []) buf) f) := by
  simp [handleLine, h]

theorem handleLine_nick (f : Nat → Int) (st : ServerState) (i sd : Nat) (c : Bytes) :
    handleLine f st i sd ("NICK ".data ++ c) =
      if c = [] then (st, [Output.send sd emptyNameMsg])
      else if sanitize c = [] then (st, [Output.send sd invalidNameMsg])
      else ({ st with names := st.names.set i ((sanitize c).take (NAME_LEN - 1)) }, []) :=
  rfl

theorem handleLine_nick_reject (f : Nat → Int) (st : ServerState) (i sd : Nat)
    (c : Bytes) (h : sanitize c = []) :
    handleLine f st i sd ("NICK ".data ++ c) =
      (st, [Output.send sd (if c = [] then emptyNameMsg else invalidNameMsg)]) := by
  by_cases hc : c = []
  · subst hc; rfl
  · rw [handleLine_nick]
    simp only [if_neg hc, if_pos h]

theorem handleLine_nick_ok (f : Nat → Int) (st : ServerState) (i sd : Nat)
    (c : Bytes) (h : sanitize c ≠ []) :
    handleLine f st i sd ("NICK ".data ++ c) =
      ({ st with names := st.names.set i (sanitize c) }, []) := by
  have hc : c ≠ [] := by
    intro hnil
    rw [hnil] at h
    exact h sanitize_nil
  rw [handleLine_nick, if_neg hc, if_neg h, sanitize_take]

theorem chatFormat_eq (n t : Bytes) (hn : n.length ≤ NAME_LEN - 1)
    (ht : t.length ≤ BUF_SIZE - 1) :
    chatFormat n t = "[".data ++ n ++ "] ".data ++ t ++ "\n".data := by
  unfold chatFormat
  apply List.take_of_length_le
  have h1 : ("[".data).length = 1 := rfl
  have h2 : ("] ".data).length = 2 := rfl
  have h3 : ("\n".data).length = 1 := rfl
  simp only [List.length_append, h1, h2, h3]
  simp only [NAME_LEN, BUF_SIZE] at hn ht ⊢
  omega

theorem serverFormat_eq (t : Bytes) (ht : t.length ≤ BUF_SIZE - 1) :
    serverFormat t = "[server] ".data ++ t ++ "\n".data := by
  unfold serverFormat
  apply List.take_of_length_le
  have h1 : ("[server] ".data).length = 9 := rfl
  have h3 : ("\n".data).length = 1 := rfl
  simp only [List.length_append, h1, h3]
  simp only [BUF_SIZE] at ht ⊢
  omega

theorem getD_set_self (l : List Nat) : ∀ i : Nat, (l.set i 0).getD i 0 = 0 := by
  induction l with
  | nil => intro i; rfl
  | cons a rest ih =>
    intro i
    cases i with
    | zero => rfl
    | succ j => simpa using ih j

theorem broadcast_mem_send (socks : List Nat) (e : Int) (d : Bytes) (f : Nat → Int)
    (out : Output) (h : out ∈ broadcast_to_all socks e d f) :
    ∃ fd : Nat, 0 < fd ∧ out = Output.send fd d := by
  rw [broadcast_to_all_eq_spec] at h
  rcases List.mem_map.mp h with ⟨p, hp, hout⟩
  have hpred := of_decide_eq_true (List.mem_filter.mp hp).2
  exact ⟨p.2, hpred.1, hout.symm⟩

theorem trim_crlf_append_single (s : Bytes) (c : Char) :
    trim_crlf (s ++ [c]) = if crlf c then trim_crlf s else s ++ [c] := by
  unfold trim_crlf
  rw [List.reverse_append]
  simp only [List.reverse_cons, List.reverse_nil, List.nil_append, List.singleton_append,
    List.dropWhile_cons]
  by_cases hc : crlf c = true
  · rw [if_pos hc, if_pos hc]
  · rw [if_neg hc, if_neg hc, List.reverse_cons, List.reverse_reverse]

/-! ## The claims -/

/-- C1: for every sequence of admissions and evictions the number of
simultaneously admitted clients never exceeds `MAX_CLIENTS`; when every
slot is occupied a further admission attempt is rejected — the new
connection is sent the fixed server-full notice and then closed, the
registry is left exactly as it was (so no already-admitted client is
disturbed and the new connection never enters the registry). -/
theorem c1_capacity_bound_and_full_rejection :
    (∀ ops : List RegistryOp, admittedCount (applyOps initState ops) ≤ MAX_CLIENTS) ∧
    (∀ (st : ServerState) (cfd : Nat), findFreeSlot st.clients = none →
      handleAccept st cfd =
        (st, [Output.send cfd serverFullMsg, Output.close cfd])) := by
  constructor
  · intro ops
    have hlen := applyOps_clients_length ops initState
    have hinit : initState.clients.length = MAX_CLIENTS := by
      simp [initState]
    calc admittedCount (applyOps initState ops)
        ≤ ((applyOps initState ops).clients).length := List.countP_le_length _
      _ = MAX_CLIENTS := by rw [hlen, hinit]
  · intro st cfd h
    simp [handleAccept, h]

/-- Witness for C1: a concrete admit/evict sequence stays within the bound,
and an admission attempt against a completely full registry is rejected
with the fixed notice, leaving the registry untouched. -/
theorem c1_witness :
    admittedCount (applyOps initState
      [RegistryOp.accept 4, RegistryOp.accept 5, RegistryOp.evict 0]) ≤ MAX_CLIENTS ∧
    handleAccept fullState 99 =
      (fullState, [Output.send 99 serverFullMsg, Output.close 99]) :=
  ⟨c1_capacity_bound_and_full_rejection.1 _,
   c1_capacity_bound_and_full_rejection.2 fullState 99 (by decide)⟩

/-- C4: a rename stores the candidate with all non-printable characters and
the characters `[` and `]` removed, then truncated to `NAME_LEN - 1 = 31`
characters; the candidate `a[b]c` yields the stored name `abc`; if the
sanitized result is empty the rename is rejected and the registry keeps its
previous name. -/
theorem c4_rename_sanitization :
    (∀ c : Bytes, sanitize c = (c.filter goodNameChar).take (NAME_LEN - 1)) ∧
    sanitize "a[b]c".data = "abc".data ∧
    (∀ (f : Nat → Int) (st : ServerState) (i sd : Nat) (c chunk : Bytes),
      st.clients.getD i 0 = sd → 0 < sd →
      trim_crlf chunk = "NICK ".data ++ c → sanitize c ≠ [] →
      handleClientData f st i (RecvResult.data chunk) =
        ({ st with names := st.names.set i (sanitize c) }, [])) ∧
    (∀ (f : Nat → Int) (st : ServerState) (i sd : Nat) (c chunk : Bytes),
      st.clients.getD i 0 = sd → 0 < sd →
      trim_crlf chunk = "NICK ".data ++ c → sanitize c = [] →
      (handleClientData f st i (RecvResult.data chunk)).1 = st) := by
  refine ⟨sanitize_eq_filter_take, by decide, ?_, ?_⟩
  · intro f st i sd c chunk hsd hpos hline hsan
    rw [handleClientData_data_eq f st i sd chunk hsd hpos, hline,
      handleLine_nick_ok f st i sd c hsan]
  · intro f st i sd c chunk hsd hpos hline hsan
    rw [handleClientData_data_eq f st i sd chunk hsd hpos, hline,
      handleLine_nick_reject f st i sd c hsan]

/-- Witness for C4: the client at slot 0 of `stAB` sends `NICK a[b]c`; the
stored name becomes `abc` and nothing is sent to anyone. -/
theorem c4_witness :
    handleClientData (fun _ => 0) stAB 0 (RecvResult.data "NICK a[b]c\n".data) =
      ({ stAB with names := stAB.names.set 0 (sanitize "a[b]c".data) }, []) :=
  c4_rename_sanitization.2.2.1 (fun _ => 0) stAB 0 4 "a[b]c".data "NICK a[b]c\n".data
    (by decide) (by decide) (by decide) (by decide)

/-- C7: a send failure on one broadcast recipient neither removes any later
recipient from the attempt list (the attempts do not depend on the send
results at all) nor evicts anyone during the broadcast (handling a read
chunk never changes the `clients` array); the failing connection is evicted
precisely when its own read reports closure or error. -/
theorem c7_send_failure_isolation :
    (∀ (socks : List Nat) (e : Int) (d : Bytes) (f g : Nat → Int),
      broadcast_to_all socks e d f = broadcast_to_all socks e d g) ∧
    (∀ (f : Nat → Int) (st : ServerState) (i : Nat) (chunk : Bytes),
      ((handleClientData f st i (RecvResult.data chunk)).1).clients = st.clients) ∧
    (∀ (f : Nat → Int) (st : ServerState) (i sd : Nat),
      st.clients.getD i 0 = sd → 0 < sd →
      handleClientData f st i RecvResult.closed =
        ({ clients := st.clients.set i 0, names := st.names.set i [] },
          [Output.close sd])) := by
  refine ⟨?_, ?_, ?_⟩
  · intro socks e d f g
    exact broadcast_go_sendFn_irrelevant e d f g socks 0
  · intro f st i chunk
    by_cases h0 : st.clients.getD i 0 = 0
    · simp only [handleClientData, if_pos h0]
    · simp only [handleClientData, if_neg h0, handleLine]
      split
      · split
        · rfl
        · split
          · rfl
          · rfl
      · rfl
  · intro f st i sd hsd hpos
    have hne : ¬ st.clients.getD i 0 = 0 := by rw [hsd]; omega
    simp only [handleClientData, evictSlot, if_neg hne, hsd]
    simp only [if_neg (show ¬ sd = 0 by omega)]

/-- Witness for C7: two distinct send-result oracles produce the same
attempt list, and a failed read on slot 0 of `stAB` evicts exactly that
slot. -/
theorem c7_witness :
    broadcast_to_all [4, 5] (-1) "x".data (fun _ => -1) =
      broadcast_to_all [4, 5] (-1) "x".data (fun _ => 1) ∧
    handleClientData (fun _ => 0) stAB 0 RecvResult.closed =
      ({ clients := stAB.clients.set 0 0, names := stAB.names.set 0 [] },
        [Output.close 4]) :=
  ⟨c7_send_failure_isolation.1 [4, 5] (-1) "x".data (fun _ => -1) (fun _ => 1),
   c7_send_failure_isolation.2.2 (fun _ => 0) stAB 0 4 (by decide) (by decide)⟩

/-- C8: a `NICK` directive whose candidate is empty or sanitizes to the
empty string is rejected atomically: the registry (both arrays) is left
unchanged, a single rejection notice is sent to the requester's own
descriptor, and nothing is broadcast to anyone else. -/
theorem c8_nick_reject_atomic (f : Nat → Int) (st : ServerState) (i sd : Nat)
    (c chunk : Bytes) (hsd : st.clients.getD i 0 = sd) (hpos : 0 < sd)
    (hline : trim_crlf chunk = "NICK ".data ++ c) (hsan : sanitize c = []) :
    handleClientData f st i (RecvResult.data chunk) =
      (st, [Output.send sd (if c = [] then emptyNameMsg else invalidNameMsg)]) := by
  rw [handleClientData_data_eq f st i sd chunk hsd hpos, hline,
    handleLine_nick_reject f st i sd c hsan]

/-- Witness for C8: `NICK ` with nothing after the keyword is answered by
the empty-name notice to the requester alone, and `NICK []` (whose
candidate sanitizes to nothing) by the invalid-name notice; the registry is
unchanged in both cases. -/
theorem c8_witness :
    handleClientData (fun _ => 0) stAB 0 (RecvResult.data "NICK \n".data) =
      (stAB, [Output.send 4 (if ([] : Bytes) = [] then emptyNameMsg else invalidNameMsg)]) ∧
    handleClientData (fun _ => 0) stAB 0 (RecvResult.data "NICK []\r\n".data) =
      (stAB, [Output.send 4 (if ("[]".data : Bytes) = [] then emptyNameMsg else invalidNameMsg)]) :=
  ⟨c8_nick_reject_atomic (fun _ => 0) stAB 0 4 [] "NICK \n".data
      (by decide) (by decide) (by decide) (by decide),
   c8_nick_reject_atomic (fun _ => 0) stAB 0 4 "[]".data "NICK []\r\n".data
      (by decide) (by decide) (by decide) (by decide)⟩

/-- C9: evicting an occupied slot closes its descriptor exactly once and
clears both the descriptor and the stored name; the slot is free again
afterwards, so a future admission attempt succeeds (it emits no rejection);
evicting the same slot again — or any free slot — is a no-op with no output
and no state change, so no double close can occur. -/
theorem c9_evict_idempotent :
    (∀ (st : ServerState) (i sd : Nat), st.clients.getD i 0 = sd → 0 < sd →
      evictSlot st i =
        ({ clients := st.clients.set i 0, names := st.names.set i [] },
          [Output.close sd]) ∧
      ((evictSlot st i).1).clients.getD i 0 = 0 ∧
      evictSlot (evictSlot st i).1 i = ((evictSlot st i).1, [])) ∧
    (∀ (st : ServerState) (i : Nat), i < st.clients.length →
      ∀ cfd : Nat, (handleAccept (evictSlot st i).1 cfd).2 = []) ∧
    (∀ (st : ServerState) (i : Nat), st.clients.getD i 0 = 0 →
      evictSlot st i = (st, [])) := by
  have hfree : ∀ (st : ServerState) (i : Nat), st.clients.getD i 0 = 0 →
      evictSlot st i = (st, []) := by
    intro st i h
    simp only [evictSlot, if_pos h]
  have hocc : ∀ (st : ServerState) (i sd : Nat), st.clients.getD i 0 = sd → 0 < sd →
      evictSlot st i =
        ({ clients := st.clients.set i 0, names := st.names.set i [] },
          [Output.close sd]) := by
    intro st i sd hsd hpos
    have hne : ¬ st.clients.getD i 0 = 0 := by rw [hsd]; omega
    simp only [evictSlot, if_neg hne, hsd]
    simp only [if_neg (show ¬ sd = 0 by omega)]
  have hclr : ∀ (st : ServerState) (i : Nat),
      ((evictSlot st i).1).clients.getD i 0 = 0 := by
    intro st i
    by_cases h : st.clients.getD i 0 = 0
    · rw [hfree st i h]; exact h
    · have hs := hocc st i (st.clients.getD i 0) rfl (by omega)
      rw [hs]
      exact getD_set_self st.clients i
  refine ⟨?_, ?_, hfree⟩
  · intro st i sd hsd hpos
    refine ⟨hocc st i sd hsd hpos, hclr st i, hfree _ i (hclr st i)⟩
  · intro st i hi cfd
    apply handleAccept_of_isSome
    apply findFreeSlot_isSome _ i
    · rw [evictSlot_clients_length]; exact hi
    · exact hclr st i

/-- Witness for C9: evicting slot 0 of `stAB` closes descriptor 4 once and
clears the slot; evicting it again is a no-op; a subsequent admission is
not rejected; and evicting the free slot 1 of the evicted state changes
nothing. -/
theorem c9_witness :
    (evictSlot stAB 0 =
      ({ clients := stAB.clients.set 0 0, names := stAB.names.set 0 [] },
        [Output.close 4]) ∧
     ((evictSlot stAB 0).1).clients.getD 0 0 = 0 ∧
     evictSlot (evictSlot stAB 0).1 0 = ((evictSlot stAB 0).1, [])) ∧
    (handleAccept (evictSlot stAB 0).1 9).2 = [] :=
  ⟨c9_evict_idempotent.1 stAB 0 4 (by decide) (by decide),
   c9_evict_idempotent.2.1 stAB 0 (by decide) 9⟩

/-- C10: only a line whose first five bytes are exactly `NICK ` is treated
as a rename; `NICK` alone, `nick bob` and `NICKbob` all fail the test, and
any non-empty line failing the test is broadcast verbatim as chat with
sender attribution (and sender exclusion). -/
theorem c10_nick_classification :
    (isNickDirective "NICK".data = false ∧
     isNickDirective "nick bob".data = false ∧
     isNickDirective "NICKbob".data = false ∧
     ∀ c : Bytes, isNickDirective ("NICK ".data ++ c) = true) ∧
    (∀ (f : Nat → Int) (st : ServerState) (i sd : Nat) (chunk : Bytes),
      st.clients.getD i 0 = sd → 0 < sd →
      trim_crlf chunk ≠ [] → isNickDirective (trim_crlf chunk) = false →
      handleClientData f st i (RecvResult.data chunk) =
        (st, broadcast_to_all st.clients (i : Int)
          (chatFormat (st.names.getD i []) (trim_crlf chunk)) f)) := by
  constructor
  · exact ⟨by decide, by decide, by decide, isNickDirective_append⟩
  · intro f st i sd chunk hsd hpos hne hnick
    rw [handleClientData_data_eq f st i sd chunk hsd hpos,
      handleLine_chat f st i sd (trim_crlf chunk) hnick]

/-- Witness for C10: the line `nick bob` (lowercase keyword) from slot 0 of
`stAB` is relayed as ordinary chat, not treated as a rename. -/
theorem c10_witness :
    handleClientData (fun _ => 0) stAB 0 (RecvResult.data "nick bob\n".data) =
      (stAB, broadcast_to_all stAB.clients ((0 : Nat) : Int)
        (chatFormat (stAB.names.getD 0 []) (trim_crlf "nick bob\n".data)) (fun _ => 0)) :=
  c10_nick_classification.2 (fun _ => 0) stAB 0 4 "nick bob\n".data
    (by decide) (by decide) (by decide) (by decide)

/-- C5: a chat line `t` from an admitted client named `n` is delivered to
each recipient as exactly the bytes `[` ++ n ++ `] ` ++ t ++ newline, and
an operator line `t` (other than the shutdown directive) as exactly
`[server] ` ++ t ++ newline; every element of a broadcast is a send of
exactly the formatted payload.  The length bounds are the ones the C
buffers enforce: `fgets`/`recv` deliver at most `BUF_SIZE - 1` bytes and a
stored name holds at most `NAME_LEN - 1` bytes. -/
theorem c5_message_formatting :
    (∀ n t : Bytes, n.length ≤ NAME_LEN - 1 → t.length ≤ BUF_SIZE - 1 →
      chatFormat n t = "[".data ++ n ++ "] ".data ++ t ++ "\n".data) ∧
    (∀ t : Bytes, t.length ≤ BUF_SIZE - 1 →
      serverFormat t = "[server] ".data ++ t ++ "\n".data) ∧
    (∀ (f : Nat → Int) (st : ServerState) (i sd : Nat) (chunk : Bytes),
      st.clients.getD i 0 = sd → 0 < sd →
      isNickDirective (trim_crlf chunk) = false →
      (handleClientData f st i (RecvResult.data chunk)).2 =
        broadcast_to_all st.clients (i : Int)
          (chatFormat (st.names.getD i []) (trim_crlf chunk)) f) ∧
    (∀ (f : Nat → Int) (st : ServerState) (line : Bytes),
      trim_crlf line ≠ "/quit".data →
      handleStdin f st (some line) =
        some (broadcast_to_all st.clients (-1) (serverFormat (trim_crlf line)) f)) ∧
    (∀ (socks : List Nat) (e : Int) (d : Bytes) (f : Nat → Int) (out : Output),
      out ∈ broadcast_to_all socks e d f →
      ∃ fd : Nat, 0 < fd ∧ out = Output.send fd d) := by
  refine ⟨chatFormat_eq, serverFormat_eq, ?_, ?_, broadcast_mem_send⟩
  · intro f st i sd chunk hsd hpos hnick
    rw [handleClientData_data_eq f st i sd chunk hsd hpos,
      handleLine_chat f st i sd (trim_crlf chunk) hnick]
  · intro f st line h
    simp only [handleStdin, if_neg h]

/-- Witness for C5: the concrete payloads `[bob] hi` and `[server] hi`,
each with the trailing newline, computed from the formatters. -/
theorem c5_witness :
    chatFormat "bob".data "hi".data =
      "[".data ++ "bob".data ++ "] ".data ++ "hi".data ++ "\n".data ∧
    serverFormat "hi".data = "[server] ".data ++ "hi".data ++ "\n".data ∧
    handleStdin (fun _ => 0) stAB (some "hi\n".data) =
      some (broadcast_to_all stAB.clients (-1)
        (serverFormat (trim_crlf "hi\n".data)) (fun _ => 0)) :=
  ⟨c5_message_formatting.1 "bob".data "hi".data (by decide) (by decide),
   c5_message_formatting.2.1 "hi".data (by decide),
   c5_message_formatting.2.2.2.1 (fun _ => 0) stAB "hi\n".data (by decide)⟩

/-- C6: for a chat message from the client at slot `X` the broadcast
attempts delivery to exactly the occupied slots other than `X` — in
particular never back to slot `X` itself — while an operator message
(`except_idx = -1`) is attempted at every occupied slot with no
exclusion. -/
theorem c6_broadcast_exclusion :
    (∀ (socks : List Nat) (e : Int) (d : Bytes) (f : Nat → Int),
      broadcast_to_all socks e d f =
        ((List.enumFrom 0 socks).filter
            (fun p => decide (0 < p.2 ∧ (p.1 : Int) ≠ e))).map
          (fun p => Output.send p.2 d)) ∧
    (∀ (socks : List Nat) (d : Bytes) (f : Nat → Int),
      broadcast_to_all socks (-1) d f =
        ((List.enumFrom 0 socks).filter (fun p => decide (0 < p.2))).map
          (fun p => Output.send p.2 d)) ∧
    (∀ (socks : List Nat) (i : Nat) (d : Bytes) (f : Nat → Int) (out : Output),
      out ∈ broadcast_to_all socks (i : Int) d f →
      ∃ j : Nat, j ≠ i ∧ j < socks.length ∧ 0 < socks.getD j 0 ∧
        out = Output.send (socks.getD j 0) d) ∧
    (∀ (f : Nat → Int) (st : ServerState) (i sd : Nat) (chunk : Bytes),
      st.clients.getD i 0 = sd → 0 < sd →
      isNickDirective (trim_crlf chunk) = false →
      (handleClientData f st i (RecvResult.data chunk)).2 =
        broadcast_to_all st.clients (i : Int)
          (chatFormat (st.names.getD i []) (trim_crlf chunk)) f) := by
  refine ⟨broadcast_to_all_eq_spec, ?_, ?_, ?_⟩
  · intro socks d f
    rw [broadcast_to_all_eq_spec]
    congr 1
    apply List.filter_congr
    intro p hp
    have hne : (p.1 : Int) ≠ -1 := by omega
    rw [decide_eq_decide]
    exact and_iff_left hne
  · intro socks i d f out h
    rw [broadcast_to_all_eq_spec] at h
    rcases List.mem_map.mp h with ⟨p, hp, hout⟩
    have hmem := (List.mem_filter.mp hp).1
    have hpred := of_decide_eq_true (List.mem_filter.mp hp).2
    obtain ⟨p1, p2⟩ := p
    have hE := List.mem_enumFrom hmem
    have hlt : p1 < socks.length := by
      have := hE.2.1
      omega
    have hval : socks.getD p1 0 = p2 := by
      rw [List.getD_eq_getElem?_getD, List.getElem?_eq_getElem hlt]
      simpa using hE.2.2.symm
    have hji : p1 ≠ i := by
      intro hh
      apply hpred.2
      rw [hh]
    refine ⟨p1, hji, hlt, ?_, ?_⟩
    · rw [hval]; exact hpred.1
    · rw [hval]; exact hout.symm
  · intro f st i sd chunk hsd hpos hnick
    rw [handleClientData_data_eq f st i sd chunk hsd hpos,
      handleLine_chat f st i sd (trim_crlf chunk) hnick]

/-- Witness for C6: in the registry `[4, 0, 5]` a broadcast excluding slot 0
delivers the send observed at descriptor 5 from some occupied slot other
than 0. -/
theorem c6_witness :
    ∃ j : Nat, j ≠ 0 ∧ j < [4, 0, 5].length ∧ 0 < [4, 0, 5].getD j 0 ∧
      Output.send 5 "x".data = Output.send ([4, 0, 5].getD j 0) "x".data :=
  c6_broadcast_exclusion.2.2.1 [4, 0, 5] 0 "x".data (fun _ => 0)
    (Output.send 5 "x".data) (by decide)

/-- C2 counterexample: the claim says a line that is empty after stripping
trailing CR/LF yields no event at all; but when slot 0 of `stAB` (name
`anon4`) sends the single byte newline, the code broadcasts `[anon4] \n`
to descriptor 5 — the output list is not empty. -/
theorem c2_counterexample :
    (handleClientData (fun _ => 0) stAB 0 (RecvResult.data ['\n'])).2 =
      [Output.send 5 "[anon4] \n".data] ∧
    (handleClientData (fun _ => 0) stAB 0 (RecvResult.data ['\n'])).2 ≠ [] ∧
    trim_crlf ['\n'] = [] := by
  refine ⟨by decide, by decide, by decide⟩

/-- C2 (amended): a line from an admitted client that is empty after
stripping trailing CR/LF is NOT silently dropped: the code treats it as an
ordinary chat message and broadcasts the formatted empty message
`[name] ` ++ newline to the other clients; only the registry is unchanged.
-/
theorem c2_empty_line_broadcast (f : Nat → Int) (st : ServerState) (i sd : Nat)
    (chunk : Bytes) (hsd : st.clients.getD i 0 = sd) (hpos : 0 < sd)
    (hempty : trim_crlf chunk = []) :
    handleClientData f st i (RecvResult.data chunk) =
      (st, broadcast_to_all st.clients (i : Int)
        (chatFormat (st.names.getD i []) []) f) := by
  rw [handleClientData_data_eq f st i sd chunk hsd hpos, hempty,
    handleLine_chat f st i sd [] (by decide)]

/-- Witness for C2 (amended): the chunk consisting of CR LF alone is
broadcast as the empty chat message of slot 0, with the registry
unchanged. -/
theorem c2_witness :
    handleClientData (fun _ => 0) stAB 0 (RecvResult.data ['\r', '\n']) =
      (stAB, broadcast_to_all stAB.clients ((0 : Nat) : Int)
        (chatFormat (stAB.names.getD 0 []) []) (fun _ => 0)) :=
  c2_empty_line_broadcast (fun _ => 0) stAB 0 4 ['\r', '\n']
    (by decide) (by decide) (by decide)

/-- C3 counterexample: the claim says a read chunk is framed into
newline-delimited lines, one event per line; but when slot 0 of `stAB`
sends the single chunk `a` LF `b` LF, the code produces exactly ONE send —
whose payload still contains the interior newline — instead of the two
per-line events. -/
theorem c3_counterexample :
    (handleClientData (fun _ => 0) stAB 0 (RecvResult.data "a\nb\n".data)).2 =
      [Output.send 5 "[anon4] a\nb\n".data] ∧
    ((handleClientData (fun _ => 0) stAB 0 (RecvResult.data "a\nb\n".data)).2).length = 1 ∧
    (handleClientData (fun _ => 0) stAB 0 (RecvResult.data "a\nb\n".data)).2 ≠
      [Output.send 5 "[anon4] a\n".data, Output.send 5 "[anon4] b\n".data] := by
  refine ⟨by decide, by decide, by decide⟩

/-- C3 (amended): the relay does not split a read chunk at interior
newlines: each chunk is handled as a single line — only the trailing run of
CR/LF bytes is stripped (`trim_crlf` looks at the last byte only), and the
whole remainder, embedded newlines included, becomes one single broadcast
event. -/
theorem c3_chunk_single_event :
    (∀ (f : Nat → Int) (st : ServerState) (i sd : Nat) (chunk : Bytes),
      st.clients.getD i 0 = sd → 0 < sd →
      isNickDirective (trim_crlf chunk) = false →
      handleClientData f st i (RecvResult.data chunk) =
        (st, broadcast_to_all st.clients (i : Int)
          (chatFormat (st.names.getD i []) (trim_crlf chunk)) f)) ∧
    (∀ (s : Bytes) (c : Char),
      trim_crlf (s ++ [c]) = if crlf c then trim_crlf s else s ++ [c]) := by
  refine ⟨?_, trim_crlf_append_single⟩
  intro f st i sd chunk hsd hpos hnick
  rw [handleClientData_data_eq f st i sd chunk hsd hpos,
    handleLine_chat f st i sd (trim_crlf chunk) hnick]

/-- Witness for C3 (amended): the multi-line chunk `a` LF `b` LF from slot 0
of `stAB` is processed as the single line `a` LF `b`, and stripping the
chunk removes only the final LF. -/
theorem c3_witness :
    handleClientData (fun _ => 0) stAB 0 (RecvResult.data "a\nb\n".data) =
      (stAB, broadcast_to_all stAB.clients ((0 : Nat) : Int)
        (chatFormat (stAB.names.getD 0 []) (trim_crlf "a\nb\n".data)) (fun _ => 0)) ∧
    trim_crlf ("a\nb".data ++ ['\n']) =
      (if crlf '\n' then trim_crlf "a\nb".data else "a\nb".data ++ ['\n']) :=
  ⟨c3_chunk_single_event.1 (fun _ => 0) stAB 0 4 "a\nb\n".data
      (by decide) (by decide) (by decide),
   c3_chunk_single_event.2 "a\nb".data '\n'⟩

end ChatServer
